import Mathlib

/-!
# Verification of the bestbets odds-normalization pipeline

Shallow embedding of the content-to-structured-odds normalization core of
the repository: the Content Sanitizer (`save_comprehensive_data.js`), the
Odds-Pattern Extractor and per-article error handling (`puppeteer_rss.js`),
and odds normalization / entity recognition
(`src/agents/rssFeed.agent.ts`, `parseOddsData` and `extractSport`).

Strings are modelled over their character lists; JavaScript's
`toLowerCase`, `trim` and `\s` are modelled for the ASCII range the
pipeline operates on.
-/

/-- ASCII model of the whitespace class matched by JavaScript `\s` and
removed by `String.prototype.trim` on the pipeline's inputs. -/
def isWsChar (c : Char) : Bool :=
  c == ' ' || c == '\t' || c == '\n' || c == '\r' || c == '\x0b' || c == '\x0c'

/-- ASCII model of the per-character effect of JavaScript `toLowerCase`. -/
def lowerChar (c : Char) : Char :=
  match c with
  | 'A' => 'a' | 'B' => 'b' | 'C' => 'c' | 'D' => 'd' | 'E' => 'e'
  | 'F' => 'f' | 'G' => 'g' | 'H' => 'h' | 'I' => 'i' | 'J' => 'j'
  | 'K' => 'k' | 'L' => 'l' | 'M' => 'm' | 'N' => 'n' | 'O' => 'o'
  | 'P' => 'p' | 'Q' => 'q' | 'R' => 'r' | 'S' => 's' | 'T' => 't'
  | 'U' => 'u' | 'V' => 'v' | 'W' => 'w' | 'X' => 'x' | 'Y' => 'y'
  | 'Z' => 'z'
  | other => other

/-- `String.prototype.toLowerCase`. -/
def strLower (s : String) : String :=
  String.mk (s.data.map lowerChar)

/-- Does `l` start with `needle` (character-exact)? -/
def chStartsWith : List Char → List Char → Bool
  | [], _ => true
  | _ :: _, [] => false
  | c :: cs, x :: xs => c == x && chStartsWith cs xs

/-- Does `l` contain `needle` as a contiguous substring? -/
def chContains (needle : List Char) : List Char → Bool
  | [] => chStartsWith needle []
  | x :: xs => chStartsWith needle (x :: xs) || chContains needle xs

/-- JavaScript `hay.includes(kw)`. -/
def strContains (hay kw : String) : Bool :=
  chContains kw.data hay.data

/-- Remove trailing whitespace. -/
def dropTrail (l : List Char) : List Char :=
  ((l.reverse).dropWhile isWsChar).reverse

/-- JavaScript `String.prototype.trim` on the character list. -/
def trimChars (l : List Char) : List Char :=
  dropTrail (l.dropWhile isWsChar)

/-- JavaScript `text.trim()`. -/
def jsTrim (s : String) : String :=
  String.mk (trimChars s.data)

/-- Worker for `collapseWs`; `inRun` records whether the previous character
was whitespace (in which case the run's single space was already emitted). -/
def collapseWsAux (inRun : Bool) : List Char → List Char
  | [] => []
  | c :: rest =>
    if isWsChar c then
      if inRun then collapseWsAux true rest
      else ' ' :: collapseWsAux true rest
    else c :: collapseWsAux false rest

/-- JavaScript `replace(/\s+/g, ' ')`: collapse each whitespace run to one
space. -/
def collapseWs (l : List Char) : List Char :=
  collapseWsAux false l

/-- The dedup normalization of `isDuplicateText`
(`save_comprehensive_data.js` line 50):
`text.toLowerCase().trim().replace(/\s+/g, ' ')`. -/
def jsNormalize (s : String) : String :=
  String.mk (collapseWs (trimChars (s.data.map lowerChar)))

/-- The junk regexes of `isJunkText` (`save_comprehensive_data.js` lines
10-42); each is a literal (specials were escaped), tested case-insensitively
against the lower-cased text, so containment of the lower-case literal. -/
def junkLits : List String :=
  ["gambling problem? call", "1-800-gambler", "gamblinghelplinema.org",
   "ccpg.org", "mdgamblinghelp.org", "gambleaware.org", "ncpgambling.org",
   "gamcare.org.uk", "new customers only", "deposit min. $10",
   "place first bet", "get $150 in bonus bets", "terms and conditions",
   "eligibility restrictions apply", "void in", "21+ and present in",
   "sponsored by", "on behalf of", "must register new account",
   "single-use and non-withdrawable", "bonus bets expire",
   "stake removed from payout", "sportsbook.draftkings.com",
   "the handicapping, sports odds information",
   "for entertainment purposes only",
   "please confirm the wagering regulations",
   "using this information to contravene",
   "the site is not associated with", "odds shark does not target",
   "please visit", "guidelines on responsible gaming"]

/-- `isJunkText` (`save_comprehensive_data.js` lines 4-45): a non-string or
falsy (empty) entry is junk; otherwise junk iff some boilerplate pattern
matches the lower-cased text. -/
def isJunkText (text : String) : Bool :=
  text == "" || junkLits.any (fun p => strContains (strLower text) p)

/-- `isDuplicateText` (`save_comprehensive_data.js` lines 47-55), with the
mutable `Set` threaded explicitly: returns the verdict and the updated set
of seen normalized texts. -/
def isDuplicateText (text : String) (seenTexts : List String) :
    Bool × List String :=
  if text == "" then (true, seenTexts)
  else
    let normalized := jsNormalize text
    if seenTexts.contains normalized then (true, seenTexts)
    else (false, normalized :: seenTexts)

/-- The `.filter(x => !isDuplicateText(key x, seenTexts))` pass shared by
the seven clean* functions, with the per-collection seen set threaded. -/
def dedupGoKey (key : α → String) (seen : List String) : List α → List α
  | [] => []
  | a :: rest =>
    match isDuplicateText (key a) seen with
    | (true, s) => dedupGoKey key s rest
    | (false, s) => a :: dedupGoKey key s rest

/-- `cleanParagraphs` (`save_comprehensive_data.js` lines 57-64): junk
filter, then dedup filter, then minimum-length filter (> 10 chars after
trim), then trim each survivor. -/
def cleanParagraphs (paragraphs : List String) : List String :=
  (((dedupGoKey id [] (paragraphs.filter (fun text => !isJunkText text))).filter
      (fun text => 10 < (jsTrim text).length)).map jsTrim)

/-- A heading object `{level, text}` extracted upstream. -/
structure Heading where
  level : Nat
  text : String
  deriving DecidableEq, Repr

/-- `cleanHeadings` (`save_comprehensive_data.js` lines 66-74): junk filter,
dedup filter on the text, two literal-containment filters, minimum-length
filter (> 3 chars after trim); no trim map. -/
def cleanHeadings (headings : List Heading) : List Heading :=
  ((((dedupGoKey Heading.text [] (headings.filter
        (fun h => !isJunkText h.text))).filter
      (fun h => !strContains (strLower h.text) "terms and conditions")).filter
    (fun h => !strContains (strLower h.text) "on this page")).filter
  (fun h => 3 < (jsTrim h.text).length))

/-- `\d+\.?\d*` (greedy, no backtracking is needed in the surrounding
patterns): returns the matched characters and the remainder. -/
def pNum (l : List Char) : Option (List Char × List Char) :=
  let d1 := l.takeWhile Char.isDigit
  let r1 := l.dropWhile Char.isDigit
  if d1.isEmpty then none
  else
    match r1 with
    | '.' :: r2 =>
      some (d1 ++ '.' :: r2.takeWhile Char.isDigit, r2.dropWhile Char.isDigit)
    | _ => some (d1, r1)

/-- Match a lower-case literal case-insensitively at the head of `l`;
returns the consumed original characters and the remainder. -/
def tryLitCI : List Char → List Char → Option (List Char × List Char)
  | [], l => some ([], l)
  | _ :: _, [] => none
  | p :: ps, x :: xs =>
    if lowerChar x == p then
      match tryLitCI ps xs with
      | some (m, r) => some (x :: m, r)
      | none => none
    else none

/-- Try a list of literal alternatives in declaration order. -/
def tryKw : List String → List Char → Option (List Char × List Char)
  | [], _ => none
  | k :: ks, l =>
    match tryLitCI k.data l with
    | some res => some res
    | none => tryKw ks l

/-- `/([+-]\d+\.?\d*)\s*(point|pt|pts)/gi` (`puppeteer_rss.js` line 409):
match attempt anchored at the head of `l`. -/
def tryP1 (l : List Char) : Option (List Char × List Char) :=
  match l with
  | [] => none
  | c :: r =>
    if c == '+' || c == '-' then
      match pNum r with
      | some (num, r1) =>
        let ws := r1.takeWhile isWsChar
        let r2 := r1.dropWhile isWsChar
        match tryKw ["point", "pt", "pts"] r2 with
        | some (kw, r3) => some (c :: (num ++ ws ++ kw), r3)
        | none => none
      | none => none
    else none

/-- One alternative of pattern 2: keyword, `\s*`, then `\d+\.?\d*`. -/
def tryP2Alt (kw : String) (l : List Char) : Option (List Char × List Char) :=
  match tryLitCI kw.data l with
  | some (m1, r1) =>
    let ws := r1.takeWhile isWsChar
    let r2 := r1.dropWhile isWsChar
    match pNum r2 with
    | some (num, r3) => some (m1 ++ ws ++ num, r3)
    | none => none
  | none => none

/-- `/(?:o\/u|over\/under|total)\s*(\d+\.?\d*)/gi` (`puppeteer_rss.js`
line 410): alternatives tried in source order. -/
def tryP2 (l : List Char) : Option (List Char × List Char) :=
  match tryP2Alt "o/u" l with
  | some res => some res
  | none =>
    match tryP2Alt "over/under" l with
    | some res => some res
    | none => tryP2Alt "total" l

/-- `/([+-]\d{3,4})/g` (`puppeteer_rss.js` line 411): sign then greedily up
to four, at least three, digits. -/
def tryP3 (l : List Char) : Option (List Char × List Char) :=
  match l with
  | [] => none
  | c :: r =>
    if c == '+' || c == '-' then
      let d := r.takeWhile Char.isDigit
      let rest := r.dropWhile Char.isDigit
      if 4 ≤ d.length then some (c :: d.take 4, d.drop 4 ++ rest)
      else if d.length == 3 then some (c :: d, rest)
      else none
    else none

/-- `/(\d+\.?\d*)\s*to\s*(\d+\.?\d*)/gi` (`puppeteer_rss.js` line 412). -/
def tryP4 (l : List Char) : Option (List Char × List Char) :=
  match pNum l with
  | some (n1, r1) =>
    let ws1 := r1.takeWhile isWsChar
    let r2 := r1.dropWhile isWsChar
    match tryLitCI "to".data r2 with
    | some (m2, r3) =>
      let ws2 := r3.takeWhile isWsChar
      let r4 := r3.dropWhile isWsChar
      match pNum r4 with
      | some (n2, r5) => some (n1 ++ ws1 ++ m2 ++ ws2 ++ n2, r5)
      | none => none
    | none => none
  | none => none

/-- Global scan of a pattern over the text, as JavaScript `match` with the
`g` flag: leftmost match, continue after each match, advance one character
after a failed attempt. Fuel bounds the recursion; every pattern here
consumes at least one character, so `l.length` fuel is exact. -/
def scanAux (tryM : List Char → Option (List Char × List Char)) :
    Nat → List Char → List (List Char)
  | 0, _ => []
  | _ + 1, [] => []
  | fuel + 1, c :: rest =>
    match tryM (c :: rest) with
    | some (m, r) => m :: scanAux tryM fuel r
    | none => scanAux tryM fuel rest

/-- All matches of a pattern in a string, in text order. -/
def jsMatchAll (tryM : List Char → Option (List Char × List Char))
    (s : String) : List String :=
  (scanAux tryM s.data.length s.data).map String.mk

/-- JavaScript `text.match(pattern)` for a global pattern: `none` models the
`null` returned when there is no match. -/
def jsMatchG (tryM : List Char → Option (List Char × List Char))
    (s : String) : Option (List String) :=
  let ms := jsMatchAll tryM s
  if ms.isEmpty then none else some ms

/-- The four fixed pattern scans of the Odds-Pattern Extractor
(`puppeteer_rss.js` lines 408-413), in declaration order. -/
def oddsScanners : List (List Char → Option (List Char × List Char)) :=
  [tryP1, tryP2, tryP3, tryP4]

/-- The body of the `oddsPatterns.forEach` loop (`puppeteer_rss.js` lines
415-420): if `match` returned a (non-null) array, push all its entries onto
the accumulated `data.odds`. -/
def pushMatches (text : String) (acc : List String)
    (p : List Char → Option (List Char × List Char)) : List String :=
  match jsMatchG p text with
  | some ms => acc ++ ms
  | none => acc

/-- The odds-pattern extraction of `extractOddsFromArticle`
(`puppeteer_rss.js` lines 407-420): run the four scans in order over the
article text. -/
def extractOddsPatterns (text : String) : List String :=
  oddsScanners.foldl (pushMatches text) []

/-- A raw extracted table `{headers, rows}` (`puppeteer_rss.js` lines
379-404). -/
structure RawTable where
  headers : List String
  rows : List (List String)
  deriving DecidableEq, Repr

/-- The `oddsData` bundle handed to `parseOddsData`: the raw odds-pattern
strings, the extracted tables and the article text. -/
structure OddsInput where
  odds : List String
  tables : List RawTable
  text : String
  deriving DecidableEq, Repr

/-- `{team, line, odds}` spread record (`rssFeed.agent.ts` line 215). -/
structure SpreadEntry where
  team : String
  line : String
  odds : String
  deriving DecidableEq, Repr

/-- `{team, odds}` moneyline record (`rssFeed.agent.ts` line 216). -/
structure MoneylineEntry where
  team : String
  odds : String
  deriving DecidableEq, Repr

/-- `{over, under, line}` total record (`rssFeed.agent.ts` line 217). -/
structure TotalEntry where
  over : String
  under : String
  line : String
  deriving DecidableEq, Repr

/-- `{player, team, prop, odds}` player-prop record (`rssFeed.agent.ts`
line 218). -/
structure PlayerPropEntry where
  player : String
  team : String
  prop : String
  odds : String
  deriving DecidableEq, Repr

/-- `{name, odds}` fighter record (`rssFeed.agent.ts` line 219). -/
structure FighterEntry where
  name : String
  odds : String
  deriving DecidableEq, Repr

/-- `{type, description, value}` key-odds record (`rssFeed.agent.ts`
line 220). -/
structure KeyOddsEntry where
  type : String
  description : String
  value : String
  deriving DecidableEq, Repr

/-- The `result` record of `parseOddsData` (`rssFeed.agent.ts` lines
213-229). -/
structure ParseResult where
  teams : List String
  spread : List SpreadEntry
  moneyline : List MoneylineEntry
  total : Option TotalEntry
  playerProps : List PlayerPropEntry
  fighters : List FighterEntry
  keyOdds : List KeyOddsEntry
  deriving DecidableEq, Repr

/-- The initializer of `result` (`rssFeed.agent.ts` lines 221-229). -/
def emptyParseResult : ParseResult :=
  { teams := [], spread := [], moneyline := [], total := none,
    playerProps := [], fighters := [], keyOdds := [] }

/-- The `teamPatterns` dictionary of `parseOddsData` (`rssFeed.agent.ts`
lines 236-258), in declaration order: keyword to canonical display name. -/
def teamPatterns : List (String × String) :=
  [("patriots", "Patriots"), ("commanders", "Commanders"),
   ("bengals", "Bengals"), ("eagles", "Eagles"), ("chiefs", "Chiefs"),
   ("bills", "Bills"), ("49ers", "49ers"), ("cowboys", "Cowboys"),
   ("packers", "Packers"), ("lions", "Lions"), ("jets", "Jets"),
   ("dolphins", "Dolphins"), ("steelers", "Steelers"), ("browns", "Browns"),
   ("ravens", "Ravens"), ("titans", "Titans"), ("jaguars", "Jaguars"),
   ("colts", "Colts"), ("texans", "Texans"), ("broncos", "Broncos"),
   ("raiders", "Raiders"), ("chargers", "Chargers"),
   ("cardinals", "Cardinals"), ("rams", "Rams"), ("seahawks", "Seahawks"),
   ("falcons", "Falcons"), ("panthers", "Panthers"), ("saints", "Saints"),
   ("buccaneers", "Buccaneers"), ("vikings", "Vikings"), ("bears", "Bears"),
   ("giants", "Giants"), ("washington", "Commanders"),
   ("lakers", "Lakers"), ("celtics", "Celtics"), ("warriors", "Warriors"),
   ("heat", "Heat"), ("bulls", "Bulls"), ("knicks", "Knicks"),
   ("suns", "Suns"), ("mavericks", "Mavericks"), ("bucks", "Bucks"),
   ("76ers", "76ers"), ("nets", "Nets"), ("clippers", "Clippers"),
   ("nuggets", "Nuggets"), ("jazz", "Jazz"),
   ("trail blazers", "Trail Blazers"), ("thunder", "Thunder"),
   ("pelicans", "Pelicans"), ("kings", "Kings"),
   ("timberwolves", "Timberwolves"), ("rockets", "Rockets"),
   ("spurs", "Spurs"), ("grizzlies", "Grizzlies"), ("magic", "Magic"),
   ("hawks", "Hawks"), ("hornets", "Hornets"), ("pistons", "Pistons"),
   ("pacers", "Pacers"), ("cavaliers", "Cavaliers"), ("raptors", "Raptors"),
   ("wizards", "Wizards")]

/-- One iteration of the team loop (`rssFeed.agent.ts` lines 261-265);
`title` is the already lower-cased article title. -/
def teamStep (title : String) (p : String × String) (r : ParseResult) :
    ParseResult :=
  if strContains title p.1 && !(r.teams.contains p.2) then
    { r with teams := r.teams ++ [p.2] }
  else r

/-- The anchored attempt of `/([+-]\d+\.?\d*)\s*\(([+-]\d+)\)/` at the head
of `l`, returning the two capture groups. -/
def trySpreadAt (l : List Char) : Option (String × String) :=
  match l with
  | [] => none
  | c :: r =>
    if c == '+' || c == '-' then
      match pNum r with
      | some (num, r1) =>
        match r1.dropWhile isWsChar with
        | '(' :: c2 :: r3 =>
          if c2 == '+' || c2 == '-' then
            let d2 := r3.takeWhile Char.isDigit
            if d2.isEmpty then none
            else
              match r3.dropWhile Char.isDigit with
              | ')' :: _ => some (String.mk (c :: num), String.mk (c2 :: d2))
              | _ => none
          else none
        | _ => none
      | none => none
    else none

/-- `spread.match(/([+-]\d+\.?\d*)\s*\(([+-]\d+)\)/)` (`rssFeed.agent.ts`
line 281): leftmost match, groups 1 and 2. -/
def spreadFieldMatch (s : String) : Option (String × String) :=
  go s.data
where
  go : List Char → Option (String × String)
    | [] => none
    | c :: rest =>
      match trySpreadAt (c :: rest) with
      | some gs => some gs
      | none => go rest

/-- `total.match(/(\d+\.?\d*)/)` (`rssFeed.agent.ts` line 310): the first
decimal number in the string. -/
def numberFieldMatch (s : String) : Option String :=
  go s.data
where
  go : List Char → Option String
    | [] => none
    | c :: rest =>
      if c.isDigit then
        match pNum (c :: rest) with
        | some (num, _) => some (String.mk num)
        | none => none
      else go rest

/-- The spread-cell block of the odds-table row loop (`rssFeed.agent.ts`
lines 279-294). -/
def spreadCellUpdate (team spread : String) (r : ParseResult) : ParseResult :=
  if spread ≠ "" ∧ spread ≠ "Spread" then
    match spreadFieldMatch spread with
    | some (line, odds) =>
      { r with
        spread := r.spread ++ [{ team := team, line := line, odds := odds }],
        keyOdds := r.keyOdds ++
          [{ type := "Spread", description := team ++ " " ++ line,
             value := odds }] }
    | none => r
  else r

/-- The moneyline-cell block of the odds-table row loop (`rssFeed.agent.ts`
lines 296-306). -/
def mlCellUpdate (team ml : String) (r : ParseResult) : ParseResult :=
  if ml ≠ "" ∧ ml ≠ "Moneyline" then
    { r with
      moneyline := r.moneyline ++ [{ team := team, odds := ml }],
      keyOdds := r.keyOdds ++
        [{ type := "Moneyline", description := team, value := ml }] }
  else r

/-- The total-cell block of the odds-table row loop (`rssFeed.agent.ts`
lines 308-323); over/under odds are the fixed `'(-110)'` defaults. -/
def totalCellUpdate (tot : String) (r : ParseResult) : ParseResult :=
  if tot ≠ "" ∧ tot ≠ "Total" then
    match numberFieldMatch tot with
    | some line =>
      { r with
        total := some { over := "(-110)", under := "(-110)", line := line },
        keyOdds := r.keyOdds ++
          [{ type := "Total", description := "O/U " ++ line,
             value := "Over: (-110), Under: (-110)" }] }
    | none => r
  else r

/-- One row of the spread/moneyline/total table (`rssFeed.agent.ts` lines
272-325): rows with fewer than 4 cells are skipped. -/
def oddsRowUpdate (r : ParseResult) (row : List String) : ParseResult :=
  if 4 ≤ row.length then
    totalCellUpdate (row.getD 3 "")
      (mlCellUpdate (row.getD 0 "") (row.getD 2 "")
        (spreadCellUpdate (row.getD 0 "") (row.getD 1 "") r))
  else r

/-- The odds-table pass over one table (`rssFeed.agent.ts` lines 271-326):
runs iff some header contains "spread". -/
def oddsTableStep (t : RawTable) (r : ParseResult) : ParseResult :=
  if t.headers.any (fun h => strContains (strLower h) "spread") then
    t.rows.foldl oddsRowUpdate r
  else r

/-- One fighter row (`rssFeed.agent.ts` lines 330-337). -/
def fighterRowUpdate (r : ParseResult) (row : List String) : ParseResult :=
  if 2 ≤ row.length then
    { r with fighters := r.fighters ++
        [{ name := row.getD 0 "", odds := row.getD 1 "" }] }
  else r

/-- The fighter-odds pass over one table (`rssFeed.agent.ts` lines
329-338): runs iff some header contains "fighter". -/
def fighterTableStep (t : RawTable) (r : ParseResult) : ParseResult :=
  if t.headers.any (fun h => strContains (strLower h) "fighter") then
    t.rows.foldl fighterRowUpdate r
  else r

/-- One player-prop row (`rssFeed.agent.ts` lines 342-351); `prop` is the
fixed literal `'Points'`. -/
def playerRowUpdate (r : ParseResult) (row : List String) : ParseResult :=
  if 3 ≤ row.length then
    { r with playerProps := r.playerProps ++
        [{ player := row.getD 0 "", team := row.getD 1 "",
           prop := "Points", odds := row.getD 2 "" }] }
  else r

/-- The player-props pass over one table (`rssFeed.agent.ts` lines
341-352): runs iff some header contains "player". -/
def playerTableStep (t : RawTable) (r : ParseResult) : ParseResult :=
  if t.headers.any (fun h => strContains (strLower h) "player") then
    t.rows.foldl playerRowUpdate r
  else r

/-- JavaScript `s || d` for strings: the empty string is falsy. -/
def jsOr (s d : String) : String :=
  if s == "" then d else s

/-- `/^[+-]\d{3,4}$/.test(odd) || /^[+-]\d{1,2}$/.test(odd)`
(`rssFeed.agent.ts` lines 358-360): a bare signed 1-2 or 3-4 digit
integer. -/
def isBareOdds (odd : String) : Bool :=
  match odd.data with
  | [] => false
  | c :: ds =>
    (c == '+' || c == '-') && ds.all Char.isDigit &&
      (ds.length == 3 || ds.length == 4 || ds.length == 1 || ds.length == 2)

/-- The fallback moneyline association (`rssFeed.agent.ts` lines 356-390):
runs only when the table passes produced no moneyline and at least two raw
odds patterns exist; pairs the first two bare signed integers with names by
priority teams, fighters, player props, literal placeholders. -/
def fallbackStep (odds : OddsInput) (r : ParseResult) : ParseResult :=
  if r.moneyline = [] ∧ 2 ≤ odds.odds.length then
    let moneylines := odds.odds.filter isBareOdds
    if 2 ≤ moneylines.length then
      if 2 ≤ r.teams.length then
        { r with
          moneyline := r.moneyline ++
            [{ team := jsOr (r.teams.getD 0 "") "Team 1",
               odds := moneylines.getD 0 "" },
             { team := jsOr (r.teams.getD 1 "") "Team 2",
               odds := moneylines.getD 1 "" }],
          keyOdds := r.keyOdds ++
            [{ type := "Moneyline",
               description := jsOr (r.teams.getD 0 "") "Team 1",
               value := moneylines.getD 0 "" },
             { type := "Moneyline",
               description := jsOr (r.teams.getD 1 "") "Team 2",
               value := moneylines.getD 1 "" }] }
      else if 2 ≤ r.fighters.length then
        { r with
          moneyline := r.moneyline ++
            [{ team := jsOr ((r.fighters.getD 0 { name := "", odds := "" }).name) "Fighter 1",
               odds := moneylines.getD 0 "" },
             { team := jsOr ((r.fighters.getD 1 { name := "", odds := "" }).name) "Fighter 2",
               odds := moneylines.getD 1 "" }] }
      else if 2 ≤ r.playerProps.length then
        { r with
          moneyline := r.moneyline ++
            [{ team := jsOr ((r.playerProps.getD 0 { player := "", team := "", prop := "", odds := "" }).player) "Player 1",
               odds := moneylines.getD 0 "" },
             { team := jsOr ((r.playerProps.getD 1 { player := "", team := "", prop := "", odds := "" }).player) "Player 2",
               odds := moneylines.getD 1 "" }] }
      else
        { r with
          moneyline := r.moneyline ++
            [{ team := "Team 1", odds := moneylines.getD 0 "" },
             { team := "Team 2", odds := moneylines.getD 1 "" }] }
    else r
  else r

/-- The per-table block of the `oddsData.tables.forEach` loop
(`rssFeed.agent.ts` lines 268-354): the three header checks are
independent, so all three passes can run over the same table. -/
def tableSteps (tables : List RawTable) : List (ParseResult → ParseResult) :=
  tables.flatMap (fun t => [oddsTableStep t, fighterTableStep t, playerTableStep t])

/-- The atomic state updates of the `try` body of `parseOddsData`
(`rssFeed.agent.ts` lines 231-390), in execution order: one update per
team-dictionary entry, then per table-pass, then the fallback
association. -/
def parseSteps (odds : OddsInput) (articleTitle : String) :
    List (ParseResult → ParseResult) :=
  (teamPatterns.map (teamStep (strLower articleTitle)))
    ++ tableSteps odds.tables ++ [fallbackStep odds]

/-- `parseOddsData(oddsData, articleTitle)` (`rssFeed.agent.ts` lines
212-397): run every update over the empty initial record. -/
def parseOddsData (odds : OddsInput) (articleTitle : String) : ParseResult :=
  (parseSteps odds articleTitle).foldl (fun r f => f r) emptyParseResult

/-- The state of `parseOddsData` after the team loop and table passes,
just before the fallback moneyline association. -/
def midParse (odds : OddsInput) (articleTitle : String) : ParseResult :=
  ((teamPatterns.map (teamStep (strLower articleTitle)))
    ++ tableSteps odds.tables).foldl (fun r f => f r) emptyParseResult

/-- Models the `try`/`catch` of `parseOddsData` (`rssFeed.agent.ts` lines
231 and 392-396): an unexpected exception after `n` atomic updates is
caught, the error logged, and the accumulated `result` returned. -/
def parseOddsDataCaught (odds : OddsInput) (articleTitle : String)
    (n : Nat) : ParseResult :=
  ((parseSteps odds articleTitle).take n).foldl
    (fun r f => f r) emptyParseResult

/-- The identifying name the fallback association pairs with the `i`-th
(`i < 2`) bare odds value, by the source's priority order. -/
def fallbackName (r : ParseResult) (i : Nat) : String :=
  if 2 ≤ r.teams.length then
    jsOr (r.teams.getD i "") (if i = 0 then "Team 1" else "Team 2")
  else if 2 ≤ r.fighters.length then
    jsOr ((r.fighters.getD i { name := "", odds := "" }).name)
      (if i = 0 then "Fighter 1" else "Fighter 2")
  else if 2 ≤ r.playerProps.length then
    jsOr ((r.playerProps.getD i { player := "", team := "", prop := "", odds := "" }).player)
      (if i = 0 then "Player 1" else "Player 2")
  else if i = 0 then "Team 1" else "Team 2"

/-- `extractSport(title, description)` (`rssFeed.agent.ts` lines 682-702);
its caller passes the lower-cased title and description. -/
def extractSport (title description : String) : Option String :=
  let text := title ++ " " ++ description
  if strContains text "nba" || strContains text "basketball" then
    some "basketball_nba"
  else if strContains text "nfl" || strContains text "football" then
    some "americanfootball_nfl"
  else if strContains text "mlb" || strContains text "baseball" then
    some "baseball_mlb"
  else if strContains text "nhl" || strContains text "hockey" then
    some "icehockey_nhl"
  else if strContains text "soccer" || strContains text "fifa" then
    some "soccer"
  else none

/-- Keep the first occurrence of each name not already seen: specification
reading of "distinct canonical team names, in dictionary declaration order,
deduplicated by canonical name". -/
def dedupNew (seen : List String) : List String → List String
  | [] => []
  | n :: ns =>
    if seen.contains n then dedupNew seen ns
    else n :: dedupNew (seen ++ [n]) ns

/-- Specification-side description of the recognized team list: the
canonical names of the dictionary entries whose keyword occurs in the
lower-cased title, in dictionary order, deduplicated by canonical name. -/
def teamsOfTitleSpec (articleTitle : String) : List String :=
  dedupNew []
    ((teamPatterns.filter
      (fun p => strContains (strLower articleTitle) p.1)).map Prod.snd)

/-- `a` extends to `b` by appending only: each accumulated list of `a` is a
prefix of the corresponding list of `b`. -/
def ParseResult.Extends (a b : ParseResult) : Prop :=
  a.teams <+: b.teams ∧ a.spread <+: b.spread ∧
    a.moneyline <+: b.moneyline ∧ a.playerProps <+: b.playerProps ∧
    a.fighters <+: b.fighters ∧ a.keyOdds <+: b.keyOdds

/-- One RSS feed item (`puppeteer_rss.js` lines 62-68). -/
structure RssItem where
  title : String
  link : String
  description : String
  pubDate : String
  category : String
  deriving DecidableEq, Repr

/-- The odds bundle extracted from one article page (`puppeteer_rss.js`
lines 351-357 and 430-437); `err` is the optional `error` property. -/
structure ArticleOdds where
  title : String
  url : String
  odds : List String
  tables : List RawTable
  text : String
  err : Option String
  deriving DecidableEq, Repr

/-- The error-marker record of the `catch` block of
`extractOddsFromArticle` (`puppeteer_rss.js` lines 430-437). -/
def errorMarker (url msg : String) : ArticleOdds :=
  { title := "Error", url := url, odds := [], tables := [], text := "",
    err := some msg }

/-- `extractOddsFromArticle(page, articleUrl)` (`puppeteer_rss.js` lines
337-439): the page navigation and in-page evaluation are modelled by the
oracle `ext`, whose `Except.error` case stands for a thrown exception; the
function itself never fails — the `catch` returns the error marker. -/
def extractOddsFromArticle (ext : String → Except String ArticleOdds)
    (articleUrl : String) : ArticleOdds :=
  match ext articleUrl with
  | Except.ok d => d
  | Except.error e => errorMarker articleUrl e

/-- The per-article loop of `getRSSWithPuppeteer` (`puppeteer_rss.js` lines
502-521): every feed item is processed and pushed as
`{rssItem, oddsData}`. -/
def processFeedItems (ext : String → Except String ArticleOdds)
    (items : List RssItem) : List (RssItem × ArticleOdds) :=
  items.map (fun it => (it, extractOddsFromArticle ext it.link))

theorem isWsChar_lowerChar (c : Char) : isWsChar (lowerChar c) = isWsChar c := by
  unfold lowerChar
  split <;> rfl

theorem length_dropWhile_le' (p : α → Bool) (l : List α) :
    (l.dropWhile p).length ≤ l.length := by
  induction l with
  | nil => simp
  | cons a t ih =>
    rw [List.dropWhile_cons]
    split
    · exact le_trans ih (Nat.le_succ _)
    · exact Nat.le_refl _

theorem trimChars_map_lowerChar (l : List Char) :
    trimChars (l.map lowerChar) = (trimChars l).map lowerChar := by
  have hws : (isWsChar ∘ lowerChar) = isWsChar := funext isWsChar_lowerChar
  unfold trimChars dropTrail
  rw [List.dropWhile_map, hws, ← List.map_reverse, List.dropWhile_map, hws,
    ← List.map_reverse]

theorem trimChars_idem (l : List Char) : trimChars (trimChars l) = trimChars l := by
  unfold trimChars dropTrail
  set A := l.dropWhile isWsChar with hAdef
  set T := A.reverse.takeWhile isWsChar with hTdef
  set B := A.reverse.dropWhile isWsChar with hBdef
  have hA2 : A.dropWhile isWsChar = A := List.dropWhile_idempotent ..
  have hB2 : B.dropWhile isWsChar = B := List.dropWhile_idempotent ..
  have hTB : T ++ B = A.reverse := List.takeWhile_append_dropWhile ..
  have hArev : A = B.reverse ++ T.reverse := by
    have h := congrArg List.reverse hTB
    rw [List.reverse_append, List.reverse_reverse] at h
    exact h.symm
  have h1 : B.reverse.dropWhile isWsChar = B.reverse := by
    cases hBr : B.reverse with
    | nil => simp
    | cons a t =>
      have hAeq : A = a :: (t ++ T.reverse) := by
        rw [hArev, hBr, List.cons_append]
      have hwa : isWsChar a = false := by
        by_contra hcon
        rw [Bool.not_eq_false] at hcon
        rw [hAeq, List.dropWhile_cons, if_pos hcon] at hA2
        have hlen := congrArg List.length hA2
        rw [List.length_cons] at hlen
        have hle := length_dropWhile_le' isWsChar (t ++ T.reverse)
        omega
      rw [List.dropWhile_cons, if_neg (by simp [hwa])]
  rw [h1, List.reverse_reverse, hB2]

theorem jsNormalize_jsTrim (s : String) :
    jsNormalize (jsTrim s) = jsNormalize s := by
  show String.mk (collapseWs (trimChars ((trimChars s.data).map lowerChar)))
    = String.mk (collapseWs (trimChars (s.data.map lowerChar)))
  rw [← trimChars_map_lowerChar, trimChars_idem]

theorem pushMatches_eq_append (text : String) (acc : List String)
    (p : List Char → Option (List Char × List Char)) :
    pushMatches text acc p = acc ++ jsMatchAll p text := by
  unfold pushMatches jsMatchG
  by_cases h : (jsMatchAll p text).isEmpty
  · rw [List.isEmpty_iff] at h
    simp [h]
  · simp [h]

/-- C8: for every input text, the Odds-Pattern Extractor returns the
concatenation of the match lists of its four fixed pattern scans in scan
order (signed point value, over/under total, bare signed 3-4 digit integer,
"X to Y" range), each scan's matches in text order, duplicates preserved,
with no deduplication or tagging applied. -/
theorem extractOddsPatterns_eq_concat_of_scans (text : String) :
    extractOddsPatterns text =
      jsMatchAll tryP1 text ++ jsMatchAll tryP2 text
        ++ jsMatchAll tryP3 text ++ jsMatchAll tryP4 text := by
  unfold extractOddsPatterns oddsScanners
  rw [List.foldl_cons, List.foldl_cons, List.foldl_cons, List.foldl_cons,
    List.foldl_nil, pushMatches_eq_append, pushMatches_eq_append,
    pushMatches_eq_append, pushMatches_eq_append, List.nil_append]

/-- C7: one failing article never aborts the feed loop: every feed item is
processed (the projection of the output onto the items is the input list),
and an article whose extraction raises is represented by the explicit
error-marker record with title "Error", the article url, empty odds, tables
and text, and the error description. -/
theorem feed_loop_error_marker (ext : String → Except String ArticleOdds)
    (items : List RssItem) (it : RssItem) (e : String) :
    (processFeedItems ext items).map Prod.fst = items ∧
      (it ∈ items → ext it.link = Except.error e →
        (it, ({ title := "Error", url := it.link, odds := [], tables := [],
                text := "", err := some e } : ArticleOdds))
          ∈ processFeedItems ext items) := by
  constructor
  · unfold processFeedItems
    rw [List.map_map]
    exact List.map_id items
  · intro hm hx
    unfold processFeedItems
    refine List.mem_map.mpr ⟨it, hm, ?_⟩
    rw [extractOddsFromArticle, hx]
    rfl

/-- Witness for C7 at a concrete one-item feed whose extraction fails. -/
theorem feed_loop_error_marker_witness :
    ((⟨"A", "http://x", "", "", ""⟩ : RssItem),
      ({ title := "Error", url := "http://x", odds := [], tables := [],
          text := "", err := some "boom" } : ArticleOdds))
      ∈ processFeedItems (fun _ => Except.error "boom")
          [⟨"A", "http://x", "", "", ""⟩] := by
  have h := feed_loop_error_marker (fun _ => Except.error "boom")
    [⟨"A", "http://x", "", "", ""⟩] ⟨"A", "http://x", "", "", ""⟩ "boom"
  exact h.2 (List.mem_singleton_self _) rfl

theorem dedupGoKey_cons_empty (key : α → String) {seen : List String}
    {a : α} {rest : List α} (h : (key a == "") = true) :
    dedupGoKey key seen (a :: rest) = dedupGoKey key seen rest := by
  simp [dedupGoKey, isDuplicateText, h]

theorem dedupGoKey_cons_dup (key : α → String) {seen : List String}
    {a : α} {rest : List α} (h0 : (key a == "") = false)
    (h1 : seen.contains (jsNormalize (key a)) = true) :
    dedupGoKey key seen (a :: rest) = dedupGoKey key seen rest := by
  have h1m : jsNormalize (key a) ∈ seen := List.mem_of_elem_eq_true h1
  simp [dedupGoKey, isDuplicateText, h0, h1m]

theorem dedupGoKey_cons_new (key : α → String) {seen : List String}
    {a : α} {rest : List α} (h0 : (key a == "") = false)
    (h1 : seen.contains (jsNormalize (key a)) = false) :
    dedupGoKey key seen (a :: rest)
      = a :: dedupGoKey key (jsNormalize (key a) :: seen) rest := by
  have h1m : jsNormalize (key a) ∉ seen := by
    intro hm
    have hc : seen.contains (jsNormalize (key a)) = true :=
      List.elem_eq_true_of_mem hm
    rw [h1] at hc
    exact absurd hc (by simp)
  simp [dedupGoKey, isDuplicateText, h0, h1m]

theorem dedupGo_filter_of_contains {n : String} (l : List String) :
    ∀ (seen : List String), seen.contains n = true →
      (dedupGoKey id seen l).filter (fun x => jsNormalize x == n) = [] := by
  induction l with
  | nil => intro seen _; rfl
  | cons t ts ih =>
    intro seen h
    by_cases h0 : (t == "") = true
    · rw [dedupGoKey_cons_empty id h0]
      exact ih seen h
    · rw [Bool.not_eq_true] at h0
      by_cases h1 : seen.contains (jsNormalize t) = true
      · rw [dedupGoKey_cons_dup id h0 h1]
        exact ih seen h
      · rw [Bool.not_eq_true] at h1
        rw [dedupGoKey_cons_new id h0 h1]
        simp only [id_eq]
        have hnt : ((fun x => jsNormalize x == n) t) = false := by
          simp only [beq_eq_false_iff_ne, ne_eq]
          intro hc
          rw [hc, h] at h1
          exact absurd h1 (by simp)
        rw [List.filter_cons_of_neg (p := fun x => jsNormalize x == n)
          (by rw [hnt]; exact fun hc => absurd hc (by simp))]
        exact ih _ (by rw [List.contains_cons, h, Bool.or_true])

theorem dedupGo_filter_first {n : String} (l : List String)
    (hne : ∀ x ∈ l, (x == "") = false) :
    ∀ (seen : List String), seen.contains n = false →
      (dedupGoKey id seen l).filter (fun x => jsNormalize x == n)
        = match l.find? (fun x => jsNormalize x == n) with
          | some t => [t]
          | none => [] := by
  induction l with
  | nil => intro seen _; rfl
  | cons t ts ih =>
    intro seen hs
    have h0 : (t == "") = false := hne t (List.mem_cons_self t ts)
    by_cases hm : ((fun x => jsNormalize x == n) t) = true
    · have hteq : jsNormalize t = n := by
        have h' := hm
        simp only [beq_iff_eq] at h'
        exact h'
      have h1 : seen.contains (jsNormalize t) = false := by rwa [hteq]
      have hcont : (jsNormalize t :: seen).contains n = true := by
        rw [List.contains_cons, hteq]
        simp
      rw [dedupGoKey_cons_new id h0 h1]
      simp only [id_eq]
      rw [List.find?_cons_of_pos (p := fun x => jsNormalize x == n) ts hm,
        List.filter_cons_of_pos (p := fun x => jsNormalize x == n) hm,
        dedupGo_filter_of_contains ts (jsNormalize t :: seen) hcont]
    · rw [List.find?_cons_of_neg (p := fun x => jsNormalize x == n) ts hm]
      rw [Bool.not_eq_true] at hm
      by_cases h1 : seen.contains (jsNormalize t) = true
      · rw [dedupGoKey_cons_dup id h0 h1]
        exact ih (fun x hx => hne x (List.mem_cons_of_mem t hx)) seen hs
      · rw [Bool.not_eq_true] at h1
        have hcont : (jsNormalize t :: seen).contains n = false := by
          rw [List.contains_cons, hs, Bool.or_false]
          simp only [beq_eq_false_iff_ne, ne_eq]
          intro hc
          have hm' : (jsNormalize t == n) = false := hm
          rw [← hc] at hm'
          simp at hm' 
        rw [dedupGoKey_cons_new id h0 h1]
        simp only [id_eq]
        rw [List.filter_cons_of_neg (p := fun x => jsNormalize x == n)
          (by rw [hm]; exact fun hc => absurd hc (by simp))]
        exact ih (fun x hx => hne x (List.mem_cons_of_mem t hx)) _ hcont

theorem cleanParagraphs_filter_norm (ps : List String) (n t : String)
    (hfind : (ps.filter (fun x => !isJunkText x)).find?
        (fun x => jsNormalize x == n) = some t) :
    (cleanParagraphs ps).filter (fun s => jsNormalize s == n)
      = if 10 < (jsTrim t).length then [jsTrim t] else [] := by
  have hne : ∀ x ∈ ps.filter (fun x => !isJunkText x), (x == "") = false := by
    intro x hx
    rcases List.mem_filter.mp hx with ⟨_, hjx⟩
    cases hxe : (x == "") with
    | false => rfl
    | true =>
      exfalso
      have hj : isJunkText x = true := by simp [isJunkText, hxe]
      rw [hj] at hjx
      exact absurd hjx (by simp)
  unfold cleanParagraphs
  rw [List.filter_map]
  rw [List.filter_congr
    (fun x _ => by
      show ((fun s => jsNormalize s == n) ∘ jsTrim) x
        = (fun x => jsNormalize x == n) x
      simp [Function.comp, jsNormalize_jsTrim])]
  rw [List.filter_filter]
  rw [List.filter_congr
    (fun x _ => Bool.and_comm ((fun x => jsNormalize x == n) x)
      ((fun text => decide (10 < (jsTrim text).length)) x))]
  rw [← List.filter_filter]
  rw [dedupGo_filter_first (ps.filter (fun x => !isJunkText x)) hne [] rfl,
    hfind]
  rw [List.filter_singleton]
  by_cases hlen : 10 < (jsTrim t).length
  · rw [if_pos hlen]
    simp [hlen]
  · rw [if_neg hlen]
    simp [hlen]

/-- Counterexample to C4 as stated: `["hi", "hi"]` contains two entries
normalizing to the same string, yet the sanitized output contains zero
occurrences, not one: the first occurrence is at the 10-character threshold,
so the minimum-length filter removes the kept copy while the dedup filter
has already removed the later duplicate. -/
theorem sanitizer_dedup_law_counterexample :
    (["hi", "hi"].countP (fun s => jsNormalize s == jsNormalize "hi") = 2)
      ∧ cleanParagraphs ["hi", "hi"] = []
      ∧ (cleanParagraphs ["hi", "hi"]).countP
          (fun s => jsNormalize s == jsNormalize "hi") = 0 := by
  refine ⟨by decide, by decide, by decide⟩

/-- C4 (amended): if the first entry of the junk-filtered collection that
normalizes (lower-case, trimmed, whitespace-collapsed) to `n` exceeds the
minimum-length threshold, the sanitized output contains exactly one
occurrence of that text — the trimmed first occurrence; duplicates later in
the collection never survive. -/
theorem sanitizer_dedup_law_amended (ps : List String) (n t : String)
    (hfind : (ps.filter (fun x => !isJunkText x)).find?
        (fun x => jsNormalize x == n) = some t)
    (hlen : 10 < (jsTrim t).length) :
    (cleanParagraphs ps).filter (fun s => jsNormalize s == n) = [jsTrim t] := by
  rw [cleanParagraphs_filter_norm ps n t hfind, if_pos hlen]

/-- Witness for C4 (amended) at Scenario D's concrete collection. -/
theorem sanitizer_dedup_law_amended_witness :
    (cleanParagraphs ["Great matchup tonight.", "great matchup tonight.  "]).filter
        (fun s => jsNormalize s == jsNormalize "Great matchup tonight.")
      = ["Great matchup tonight."] := by
  have h := sanitizer_dedup_law_amended
    ["Great matchup tonight.", "great matchup tonight.  "]
    (jsNormalize "Great matchup tonight.") "Great matchup tonight."
    (by decide) (by decide)
  rw [h]
  decide

/-- C9: the duplicate-tracking set records every entry surviving the junk
filter, including entries later dropped by the minimum-length filter: if
the first junk-surviving occurrence of a text is at or below the threshold,
no occurrence of that text appears in the sanitized output. -/
theorem dedup_records_short_entries (ps : List String) (n t : String)
    (hfind : (ps.filter (fun x => !isJunkText x)).find?
        (fun x => jsNormalize x == n) = some t)
    (hlen : (jsTrim t).length ≤ 10) :
    (cleanParagraphs ps).filter (fun s => jsNormalize s == n) = [] := by
  rw [cleanParagraphs_filter_norm ps n t hfind,
    if_neg (by exact Nat.not_lt.mpr hlen)]

/-- Witness for C9: a short duplicated entry disappears entirely. -/
theorem dedup_records_short_entries_witness :
    (cleanParagraphs ["short txt", "short txt", "a real paragraph here."]).filter
        (fun s => jsNormalize s == jsNormalize "short txt") = [] := by
  exact dedup_records_short_entries
    ["short txt", "short txt", "a real paragraph here."]
    (jsNormalize "short txt") "short txt" (by decide) (by decide)

theorem dedupGoKey_sublist (key : α → String) (l : List α) :
    ∀ seen : List String, List.Sublist (dedupGoKey key seen l) l := by
  induction l with
  | nil => intro seen; exact List.Sublist.refl []
  | cons a rest ih =>
    intro seen
    rcases hd : isDuplicateText (key a) seen with ⟨b, s⟩
    cases b
    · simp only [dedupGoKey, hd]
      exact List.Sublist.cons₂ a (ih s)
    · simp only [dedupGoKey, hd]
      exact List.Sublist.cons a (ih s)

/-- Counterexample to C5 as stated: the paragraph sanitizer trims surviving
entries, so its output need not be a subsequence of the input. -/
theorem sanitizer_order_law_counterexample :
    cleanParagraphs ["  great matchup abc"] = ["great matchup abc"]
      ∧ ¬ List.Sublist (cleanParagraphs ["  great matchup abc"])
            ["  great matchup abc"] := by
  refine ⟨by decide, ?_⟩
  intro h
  rw [(by decide :
    cleanParagraphs ["  great matchup abc"] = ["great matchup abc"])] at h
  have hm := h.subset (List.mem_singleton_self _)
  rw [List.mem_singleton] at hm
  exact absurd hm (by decide)

/-- C5 (amended): the sanitizer drops entries without reordering or
merging: the paragraph output is a subsequence of the entry-wise trimmed
input (each survivor is the trim of its input entry), and the heading
output is a subsequence of its input. -/
theorem sanitizer_order_law_amended (ps : List String) (hs : List Heading) :
    List.Sublist (cleanParagraphs ps) (ps.map jsTrim)
      ∧ List.Sublist (cleanHeadings hs) hs := by
  constructor
  · have h1 : List.Sublist
        ((dedupGoKey id [] (ps.filter (fun text => !isJunkText text))).filter
          (fun text => 10 < (jsTrim text).length)) ps :=
      (List.filter_sublist _).trans
        ((dedupGoKey_sublist id _ []).trans (List.filter_sublist _))
    exact h1.map jsTrim
  · exact (List.filter_sublist _).trans ((List.filter_sublist _).trans
      ((List.filter_sublist _).trans
        ((dedupGoKey_sublist Heading.text _ []).trans
          (List.filter_sublist _))))

theorem teams_spreadCellUpdate (a b : String) (r : ParseResult) :
    (spreadCellUpdate a b r).teams = r.teams := by
  unfold spreadCellUpdate
  split
  · split <;> rfl
  · rfl

theorem teams_mlCellUpdate (a b : String) (r : ParseResult) :
    (mlCellUpdate a b r).teams = r.teams := by
  unfold mlCellUpdate
  split <;> rfl

theorem teams_totalCellUpdate (a : String) (r : ParseResult) :
    (totalCellUpdate a r).teams = r.teams := by
  unfold totalCellUpdate
  split
  · split <;> rfl
  · rfl

theorem teams_oddsRowUpdate (r : ParseResult) (row : List String) :
    (oddsRowUpdate r row).teams = r.teams := by
  unfold oddsRowUpdate
  split
  · rw [teams_totalCellUpdate, teams_mlCellUpdate, teams_spreadCellUpdate]
  · rfl

theorem teams_fighterRowUpdate (r : ParseResult) (row : List String) :
    (fighterRowUpdate r row).teams = r.teams := by
  unfold fighterRowUpdate
  split <;> rfl

theorem teams_playerRowUpdate (r : ParseResult) (row : List String) :
    (playerRowUpdate r row).teams = r.teams := by
  unfold playerRowUpdate
  split <;> rfl

theorem teams_oddsTableStep (t : RawTable) (r : ParseResult) :
    (oddsTableStep t r).teams = r.teams := by
  unfold oddsTableStep
  split
  · have h : ∀ (rows : List (List String)) (r' : ParseResult),
        (rows.foldl oddsRowUpdate r').teams = r'.teams := by
      intro rows
      induction rows with
      | nil => intro r'; rfl
      | cons row rest ih =>
        intro r'
        rw [List.foldl_cons, ih, teams_oddsRowUpdate]
    exact h t.rows r
  · rfl

theorem teams_fighterTableStep (t : RawTable) (r : ParseResult) :
    (fighterTableStep t r).teams = r.teams := by
  unfold fighterTableStep
  split
  · have h : ∀ (rows : List (List String)) (r' : ParseResult),
        (rows.foldl fighterRowUpdate r').teams = r'.teams := by
      intro rows
      induction rows with
      | nil => intro r'; rfl
      | cons row rest ih =>
        intro r'
        rw [List.foldl_cons, ih, teams_fighterRowUpdate]
    exact h t.rows r
  · rfl

theorem teams_playerTableStep (t : RawTable) (r : ParseResult) :
    (playerTableStep t r).teams = r.teams := by
  unfold playerTableStep
  split
  · have h : ∀ (rows : List (List String)) (r' : ParseResult),
        (rows.foldl playerRowUpdate r').teams = r'.teams := by
      intro rows
      induction rows with
      | nil => intro r'; rfl
      | cons row rest ih =>
        intro r'
        rw [List.foldl_cons, ih, teams_playerRowUpdate]
    exact h t.rows r
  · rfl

theorem teams_tableSteps_fold (ts : List RawTable) :
    ∀ r : ParseResult,
      ((tableSteps ts).foldl (fun r f => f r) r).teams = r.teams := by
  induction ts with
  | nil => intro r; rfl
  | cons t rest ih =>
    intro r
    simp only [tableSteps, List.flatMap_cons] at ih ⊢
    rw [List.foldl_append, List.foldl_cons, List.foldl_cons, List.foldl_cons,
      List.foldl_nil]
    rw [ih, teams_playerTableStep, teams_fighterTableStep,
      teams_oddsTableStep]

theorem teams_fallbackStep (odds : OddsInput) (r : ParseResult) :
    (fallbackStep odds r).teams = r.teams := by
  unfold fallbackStep
  repeat first
    | rfl
    | split
    | dsimp only

theorem teamFold_teams (title : String) (pats : List (String × String)) :
    ∀ r : ParseResult,
      ((pats.map (teamStep title)).foldl (fun r f => f r) r).teams
        = r.teams ++ dedupNew r.teams
            ((pats.filter (fun p => strContains title p.1)).map Prod.snd) := by
  induction pats with
  | nil => intro r; simp [dedupNew]
  | cons p ps ih =>
    intro r
    rw [List.map_cons, List.foldl_cons]
    by_cases hkw : strContains title p.1 = true
    · by_cases hmem : r.teams.contains p.2 = true
      · have hmem' : p.2 ∈ r.teams := List.mem_of_elem_eq_true hmem
        have hstep : teamStep title p r = r := by
          simp [teamStep, hkw, hmem']
        rw [hstep, ih r, List.filter_cons_of_pos (by simpa using hkw),
          List.map_cons]
        rw [dedupNew, if_pos hmem]
      · rw [Bool.not_eq_true] at hmem
        have hmem' : p.2 ∉ r.teams := by
          intro hc
          have h' : r.teams.contains p.2 = true := List.elem_eq_true_of_mem hc
          rw [hmem] at h'
          exact absurd h' (by simp)
        have hstep : teamStep title p r = { r with teams := r.teams ++ [p.2] } := by
          simp [teamStep, hkw, hmem']
        rw [hstep, ih, List.filter_cons_of_pos (by simpa using hkw),
          List.map_cons]
        rw [dedupNew, if_neg (by rw [hmem]; simp)]
        simp [List.append_assoc]
    · rw [Bool.not_eq_true] at hkw
      have hstep : teamStep title p r = r := by
        simp [teamStep, hkw]
      rw [hstep, ih r, List.filter_cons_of_neg (by simp [hkw])]

/-- Counterexample to C1 as stated: a title containing three distinct
dictionary team keywords yields three teams — the cap at 2 does not hold. -/
theorem teams_cap_counterexample :
    (parseOddsData ⟨[], [], ""⟩ "Lakers vs Warriors vs Celtics").teams
        = ["Lakers", "Celtics", "Warriors"]
      ∧ ¬ ((parseOddsData ⟨[], [], ""⟩
            "Lakers vs Warriors vs Celtics").teams.length ≤ 2) := by
  exact ⟨by decide, by decide⟩

/-- C1 (amended): the teams field is sourced only from the fixed dictionary
match against the article title — it equals the list of canonical names
whose keyword occurs in the lower-cased title, in dictionary declaration
order, deduplicated by canonical name — but it is not capped at 2
entries. -/
theorem teams_sourced_only_from_dictionary (odds : OddsInput)
    (articleTitle : String) :
    (parseOddsData odds articleTitle).teams = teamsOfTitleSpec articleTitle := by
  unfold parseOddsData parseSteps
  rw [List.foldl_append, List.foldl_append, List.foldl_cons, List.foldl_nil]
  rw [teams_fallbackStep, teams_tableSteps_fold, teamFold_teams]
  rfl

/-- Counterexample to C2 as stated: the fixed placeholder stored for the
total's over/under odds is the string "(-110)", not "-110". -/
theorem scenario_b_counterexample :
    (parseOddsData
        ⟨[], [⟨["Team", "Spread", "Moneyline", "Total"],
              [["Chiefs", "-2.5 (-110)", "-140", "48.5"]]⟩], ""⟩ "").total
        = some { over := "(-110)", under := "(-110)", line := "48.5" }
      ∧ (parseOddsData
          ⟨[], [⟨["Team", "Spread", "Moneyline", "Total"],
                [["Chiefs", "-2.5 (-110)", "-140", "48.5"]]⟩], ""⟩ "").total
        ≠ some { over := "-110", under := "-110", line := "48.5" } := by
  exact ⟨by decide, by decide⟩

/-- C2 (amended): Scenario B's table yields exactly one
SpreadEntry{Chiefs, -2.5, -110}, one MoneylineEntry{Chiefs, -140}, and a
total with line "48.5" whose over and under odds are the fixed "(-110)"
placeholder strings. -/
theorem scenario_b_amended :
    (parseOddsData
        ⟨[], [⟨["Team", "Spread", "Moneyline", "Total"],
              [["Chiefs", "-2.5 (-110)", "-140", "48.5"]]⟩], ""⟩ "").spread
        = [{ team := "Chiefs", line := "-2.5", odds := "-110" }]
      ∧ (parseOddsData
          ⟨[], [⟨["Team", "Spread", "Moneyline", "Total"],
                [["Chiefs", "-2.5 (-110)", "-140", "48.5"]]⟩], ""⟩ "").moneyline
        = [{ team := "Chiefs", odds := "-140" }]
      ∧ (parseOddsData
          ⟨[], [⟨["Team", "Spread", "Moneyline", "Total"],
                [["Chiefs", "-2.5 (-110)", "-140", "48.5"]]⟩], ""⟩ "").total
        = some { over := "(-110)", under := "(-110)", line := "48.5" } := by
  exact ⟨by decide, by decide, by decide⟩

/-- C6: Scenario A — for the title "Lakers vs Warriors - NBA Game Tonight"
(lower-cased by the caller, as in `parseGameFromItem`), the sport is the
basketball tag and the teams are ["Lakers", "Warriors"], in dictionary
declaration order, deduplicated by canonical name. -/
theorem scenario_a_entity_recognition :
    extractSport (strLower "Lakers vs Warriors - NBA Game Tonight")
        (strLower "") = some "basketball_nba"
      ∧ (parseOddsData ⟨[], [], ""⟩
          "Lakers vs Warriors - NBA Game Tonight").teams
        = ["Lakers", "Warriors"] := by
  exact ⟨by decide, by decide⟩

theorem parseOddsData_eq_fallback_mid (odds : OddsInput) (title : String) :
    parseOddsData odds title = fallbackStep odds (midParse odds title) := by
  unfold parseOddsData midParse parseSteps
  rw [List.foldl_append, List.foldl_cons, List.foldl_nil]

/-- C3: the fallback association runs only when the table passes produced
zero MoneylineEntry values; when the filtered odds-pattern list (bare
signed 1-2 or 3-4 digit integers) has at least two elements it produces
exactly two MoneylineEntry records — never more — pairing the first two
values with names by priority: teams if at least 2 are known, else
fighters, else player-prop players, else the literal placeholders
"Team 1" and "Team 2". -/
theorem fallback_moneyline_pairing (odds : OddsInput) (title : String) :
    ((midParse odds title).moneyline = [] →
      2 ≤ (odds.odds.filter isBareOdds).length →
      (parseOddsData odds title).moneyline
        = [{ team := fallbackName (midParse odds title) 0,
             odds := (odds.odds.filter isBareOdds).getD 0 "" },
           { team := fallbackName (midParse odds title) 1,
             odds := (odds.odds.filter isBareOdds).getD 1 "" }])
    ∧ ((midParse odds title).moneyline ≠ [] →
      (parseOddsData odds title).moneyline = (midParse odds title).moneyline) := by
  rw [parseOddsData_eq_fallback_mid]
  constructor
  · intro hml hlen
    unfold fallbackStep
    rw [if_pos ⟨hml, le_trans hlen (List.length_filter_le _ _)⟩]
    dsimp only
    rw [if_pos hlen]
    by_cases ht : 2 ≤ (midParse odds title).teams.length
    · rw [if_pos ht]
      simp [fallbackName, ht, hml]
    · rw [if_neg ht]
      by_cases hf : 2 ≤ (midParse odds title).fighters.length
      · rw [if_pos hf]
        simp [fallbackName, ht, hf, hml]
      · rw [if_neg hf]
        by_cases hp : 2 ≤ (midParse odds title).playerProps.length
        · rw [if_pos hp]
          simp [fallbackName, ht, hf, hp, hml]
        · rw [if_neg hp]
          simp [fallbackName, ht, hf, hp, hml]
  · intro hml
    unfold fallbackStep
    rw [if_neg (fun hc => hml hc.1)]

/-- Witness for C3 at Scenario E's shape: two bare odds, no tables, no
recognized names, so the placeholder pairing applies. -/
theorem fallback_moneyline_pairing_witness :
    (midParse ⟨["+150", "-170"], [], ""⟩ "").moneyline = []
      ∧ (parseOddsData ⟨["+150", "-170"], [], ""⟩ "").moneyline
        = [{ team := "Team 1", odds := "+150" },
           { team := "Team 2", odds := "-170" }] := by
  refine ⟨by decide, ?_⟩
  have h := (fallback_moneyline_pairing ⟨["+150", "-170"], [], ""⟩ "").1
    (by decide) (by decide)
  rw [h]
  decide

theorem ParseResult.Extends.rfl (r : ParseResult) : r.Extends r :=
  ⟨List.prefix_refl _, List.prefix_refl _, List.prefix_refl _,
   List.prefix_refl _, List.prefix_refl _, List.prefix_refl _⟩

theorem ParseResult.Extends.trans {a b c : ParseResult}
    (h1 : a.Extends b) (h2 : b.Extends c) : a.Extends c :=
  ⟨h1.1.trans h2.1, h1.2.1.trans h2.2.1, h1.2.2.1.trans h2.2.2.1,
   h1.2.2.2.1.trans h2.2.2.2.1, h1.2.2.2.2.1.trans h2.2.2.2.2.1,
   h1.2.2.2.2.2.trans h2.2.2.2.2.2⟩

theorem extends_teamStep (title : String) (p : String × String)
    (r : ParseResult) : r.Extends (teamStep title p r) := by
  unfold teamStep ParseResult.Extends
  split <;>
    refine ⟨?_, ?_, ?_, ?_, ?_, ?_⟩ <;>
      first
        | exact List.prefix_refl _
        | exact List.prefix_append _ _

theorem extends_spreadCellUpdate (a b : String) (r : ParseResult) :
    r.Extends (spreadCellUpdate a b r) := by
  unfold spreadCellUpdate ParseResult.Extends
  repeat' split
  all_goals
    refine ⟨?_, ?_, ?_, ?_, ?_, ?_⟩ <;>
      first
        | exact List.prefix_refl _
        | exact List.prefix_append _ _

theorem extends_mlCellUpdate (a b : String) (r : ParseResult) :
    r.Extends (mlCellUpdate a b r) := by
  unfold mlCellUpdate ParseResult.Extends
  repeat' split
  all_goals
    refine ⟨?_, ?_, ?_, ?_, ?_, ?_⟩ <;>
      first
        | exact List.prefix_refl _
        | exact List.prefix_append _ _

theorem extends_totalCellUpdate (a : String) (r : ParseResult) :
    r.Extends (totalCellUpdate a r) := by
  unfold totalCellUpdate ParseResult.Extends
  repeat' split
  all_goals
    refine ⟨?_, ?_, ?_, ?_, ?_, ?_⟩ <;>
      first
        | exact List.prefix_refl _
        | exact List.prefix_append _ _

theorem extends_oddsRowUpdate (r : ParseResult) (row : List String) :
    r.Extends (oddsRowUpdate r row) := by
  unfold oddsRowUpdate
  split
  · exact ((extends_spreadCellUpdate _ _ r).trans
      (extends_mlCellUpdate _ _ _)).trans (extends_totalCellUpdate _ _)
  · exact ParseResult.Extends.rfl r

theorem extends_fighterRowUpdate (r : ParseResult) (row : List String) :
    r.Extends (fighterRowUpdate r row) := by
  unfold fighterRowUpdate ParseResult.Extends
  split <;>
    refine ⟨?_, ?_, ?_, ?_, ?_, ?_⟩ <;>
      first
        | exact List.prefix_refl _
        | exact List.prefix_append _ _

theorem extends_playerRowUpdate (r : ParseResult) (row : List String) :
    r.Extends (playerRowUpdate r row) := by
  unfold playerRowUpdate ParseResult.Extends
  split <;>
    refine ⟨?_, ?_, ?_, ?_, ?_, ?_⟩ <;>
      first
        | exact List.prefix_refl _
        | exact List.prefix_append _ _

theorem extends_foldl_rows {f : ParseResult → List String → ParseResult}
    (hf : ∀ (r : ParseResult) (row : List String), r.Extends (f r row))
    (rows : List (List String)) :
    ∀ r : ParseResult, r.Extends (rows.foldl f r) := by
  induction rows with
  | nil => intro r; exact ParseResult.Extends.rfl r
  | cons row rest ih =>
    intro r
    rw [List.foldl_cons]
    exact (hf r row).trans (ih (f r row))

theorem extends_oddsTableStep (t : RawTable) (r : ParseResult) :
    r.Extends (oddsTableStep t r) := by
  unfold oddsTableStep
  split
  · exact extends_foldl_rows extends_oddsRowUpdate t.rows r
  · exact ParseResult.Extends.rfl r

theorem extends_fighterTableStep (t : RawTable) (r : ParseResult) :
    r.Extends (fighterTableStep t r) := by
  unfold fighterTableStep
  split
  · exact extends_foldl_rows extends_fighterRowUpdate t.rows r
  · exact ParseResult.Extends.rfl r

theorem extends_playerTableStep (t : RawTable) (r : ParseResult) :
    r.Extends (playerTableStep t r) := by
  unfold playerTableStep
  split
  · exact extends_foldl_rows extends_playerRowUpdate t.rows r
  · exact ParseResult.Extends.rfl r

theorem extends_fallbackStep (odds : OddsInput) (r : ParseResult) :
    r.Extends (fallbackStep odds r) := by
  unfold fallbackStep ParseResult.Extends
  repeat first
    | (refine ⟨?_, ?_, ?_, ?_, ?_, ?_⟩ <;>
        first
          | exact List.prefix_refl _
          | exact List.prefix_append _ _)
    | split
    | dsimp only

theorem extends_parseSteps (odds : OddsInput) (title : String) :
    ∀ f ∈ parseSteps odds title, ∀ r : ParseResult, r.Extends (f r) := by
  intro f hf r
  unfold parseSteps at hf
  rcases List.mem_append.mp hf with h | h
  · rcases List.mem_append.mp h with h1 | h2
    · rcases List.mem_map.mp h1 with ⟨p, _, rfl⟩
      exact extends_teamStep _ p r
    · rcases List.mem_flatMap.mp h2 with ⟨t, _, hmem⟩
      simp only [List.mem_cons, List.not_mem_nil, or_false] at hmem
      rcases hmem with rfl | rfl | rfl
      · exact extends_oddsTableStep t r
      · exact extends_fighterTableStep t r
      · exact extends_playerTableStep t r
  · rw [List.mem_singleton] at h
    subst h
    exact extends_fallbackStep odds r

theorem extends_foldl_steps (steps : List (ParseResult → ParseResult))
    (h : ∀ f ∈ steps, ∀ r : ParseResult, r.Extends (f r)) :
    ∀ r : ParseResult, r.Extends (steps.foldl (fun r f => f r) r) := by
  induction steps with
  | nil => intro r; exact ParseResult.Extends.rfl r
  | cons f fs ih =>
    intro r
    rw [List.foldl_cons]
    exact (h f (List.mem_cons_self f fs) r).trans
      (ih (fun g hg => h g (List.mem_cons_of_mem f hg)) (f r))

/-- C10: `parseOddsData` never propagates an exception — the catch returns
the result accumulated before the raise: for every truncation point `n`,
the caught result is a record each of whose accumulated lists is a prefix
of the full run's, and truncation at 0 is exactly the empty initial
record. -/
theorem parse_odds_catch_partial (odds : OddsInput) (title : String)
    (n : Nat) :
    parseOddsDataCaught odds title 0 = emptyParseResult
      ∧ (parseOddsDataCaught odds title n).Extends
          (parseOddsData odds title) := by
  constructor
  · rfl
  · unfold parseOddsData parseOddsDataCaught
    conv_rhs => rw [← List.take_append_drop n (parseSteps odds title)]
    rw [List.foldl_append]
    exact extends_foldl_steps _
      (fun f hf r => extends_parseSteps odds title f
        (List.mem_of_mem_drop hf) r) _
